import Mathlib

/-!
Verification development for the `runt` IMAP/Maildir synchronizer.

The definitions below are a shallow embedding of the Rust sources:
machine integers become `Nat`/`Int`, strings become `String` or `List Char`,
fallible operations return `Except String _`, and each definition is
translated from the function of the same name in the source tree
(`src/cache/syncflags.rs`, `src/cache/messagemeta.rs`, `src/cache/db.rs`,
`src/maildirw.rs`, `src/imapw.rs`, `src/syncdir.rs`).  Filesystem and
network effects are made explicit: the SQLite table, the Maildir
directories and the IMAP mailbox each become a value threaded through the
operations, and outcomes of remote commands that can fail for external
reasons are surfaced as explicit parameters.
-/

set_option autoImplicit false

namespace Runt

/-- Embeds `FlagValue` from `src/cache/syncflags.rs`: one slot of the
five-slot maildir flag array. -/
inductive FlagValue where
  | NoFlag
  | Draft
  | Flagged
  | Replied
  | Seen
  | Trashed
deriving DecidableEq, Repr, Fintype

/-- Embeds `imap::types::Flag` as consumed by the sources (the `Custom`
arm stands for every flag the source's `match` wildcards ignore). -/
inductive Flag where
  | Seen
  | Answered
  | Flagged
  | Deleted
  | Draft
  | Recent
  | MayCreate
  | Custom (s : String)
deriving DecidableEq, Repr

/-- Embeds `SyncFlags` from `src/cache/syncflags.rs`: the single field
`maildir` is a five-element array `[FlagValue; 5]`, whose cells we name
`maildir0 .. maildir4`. -/
structure SyncFlags where
  maildir0 : FlagValue
  maildir1 : FlagValue
  maildir2 : FlagValue
  maildir3 : FlagValue
  maildir4 : FlagValue
deriving DecidableEq, Repr

namespace SyncFlags

/-- Embeds `SyncFlags::new`: all five slots hold `NoFlag`. -/
def new : SyncFlags :=
  ⟨.NoFlag, .NoFlag, .NoFlag, .NoFlag, .NoFlag⟩

/-- One iteration of the byte loop in `impl From<&str> for SyncFlags`. -/
def applyMaildirChar (flags : SyncFlags) (b : Char) : SyncFlags :=
  if b = 'D' then { flags with maildir0 := .Draft }
  else if b = 'F' then { flags with maildir1 := .Flagged }
  else if b = 'R' then { flags with maildir2 := .Replied }
  else if b = 'S' then { flags with maildir3 := .Seen }
  else if b = 'T' then { flags with maildir4 := .Trashed }
  else flags

/-- Embeds `impl From<&str> for SyncFlags`: fold the byte loop over the
string. -/
def fromMaildirStr (s : List Char) : SyncFlags :=
  s.foldl applyMaildirChar new

/-- One iteration of the flag loop in `impl From<&[Flag]> for SyncFlags`. -/
def applyImapFlag (flags : SyncFlags) (f : Flag) : SyncFlags :=
  match f with
  | .Seen => { flags with maildir3 := .Seen }
  | .Answered => { flags with maildir2 := .Replied }
  | .Flagged => { flags with maildir1 := .Flagged }
  | .Deleted => { flags with maildir4 := .Trashed }
  | .Draft => { flags with maildir0 := .Draft }
  | _ => flags

/-- Embeds `impl From<&[Flag]> for SyncFlags`. -/
def fromImapFlags (fs : List Flag) : SyncFlags :=
  fs.foldl applyImapFlag new

/-- The five slots in index order, as iterated by the source's `for`
loops. -/
def slots (flags : SyncFlags) : List FlagValue :=
  [flags.maildir0, flags.maildir1, flags.maildir2, flags.maildir3, flags.maildir4]

end SyncFlags

/-- The character pushed for one slot in `impl ToString for SyncFlags`
(`none` for the `_ => ()` arm). -/
def FlagValue.pushChar : FlagValue → Option Char
  | .Draft => some 'D'
  | .Flagged => some 'F'
  | .Replied => some 'R'
  | .Seen => some 'S'
  | .Trashed => some 'T'
  | .NoFlag => none

/-- Embeds `impl ToString for SyncFlags`: visit the slots in order,
pushing the letter of every non-`NoFlag` slot. -/
def SyncFlags.toMaildirString (flags : SyncFlags) : List Char :=
  flags.slots.filterMap FlagValue.pushChar

/-- Embeds `SyncFlags::contains`. -/
def SyncFlags.contains (flags : SyncFlags) (other : FlagValue) : Bool :=
  flags.slots.any (fun f => f == other)

/-- Embeds `SyncFlags::empty`. -/
def SyncFlags.empty (flags : SyncFlags) : Bool :=
  flags.slots.all (fun f => f == .NoFlag)

/-- The `add` component of one slot of `SyncFlags::diff`, following the
source's `match (self.maildir[i], other.maildir[i])` arm order. -/
def diffSlotAdd : FlagValue → FlagValue → FlagValue
  | .NoFlag, .NoFlag => .NoFlag
  | .NoFlag, x => x
  | _, _ => .NoFlag

/-- The `sub` component of one slot of `SyncFlags::diff`. -/
def diffSlotSub : FlagValue → FlagValue → FlagValue
  | .NoFlag, _ => .NoFlag
  | x, .NoFlag => x
  | _, _ => .NoFlag

/-- Embeds `SyncFlagsDiff` from `src/cache/syncflags.rs`. -/
structure SyncFlagsDiff where
  add : SyncFlags
  sub : SyncFlags
deriving DecidableEq, Repr

/-- Embeds `SyncFlags::diff`, slot by slot. -/
def SyncFlags.diff (self other : SyncFlags) : SyncFlagsDiff where
  add := ⟨diffSlotAdd self.maildir0 other.maildir0,
          diffSlotAdd self.maildir1 other.maildir1,
          diffSlotAdd self.maildir2 other.maildir2,
          diffSlotAdd self.maildir3 other.maildir3,
          diffSlotAdd self.maildir4 other.maildir4⟩
  sub := ⟨diffSlotSub self.maildir0 other.maildir0,
          diffSlotSub self.maildir1 other.maildir1,
          diffSlotSub self.maildir2 other.maildir2,
          diffSlotSub self.maildir3 other.maildir3,
          diffSlotSub self.maildir4 other.maildir4⟩

/-- The IMAP flag pushed for one slot in `SyncFlags::as_imap_flags`. -/
def FlagValue.toImapFlag : FlagValue → Option Flag
  | .NoFlag => none
  | .Draft => some .Draft
  | .Flagged => some .Flagged
  | .Replied => some .Answered
  | .Seen => some .Seen
  | .Trashed => some .Deleted

/-- Embeds `SyncFlags::as_imap_flags`: collect the slots' IMAP flags,
returning `none` when the collection is empty. -/
def SyncFlags.asImapFlags (flags : SyncFlags) : Option (List Flag) :=
  let res := flags.slots.filterMap FlagValue.toImapFlag
  if res.isEmpty then none else some res

/-- Embeds `maildir_flags_from_imap` from `src/cache/mod.rs`. -/
def maildir_flags_from_imap (inflags : List Flag) : List Char :=
  (SyncFlags.fromImapFlags inflags).toMaildirString

/-- The canonical flag set determined by a subset of `{D, F, R, S, T}`:
slot `i` holds its canonical flag exactly when the corresponding Bool is
set.  These are exactly the 32 flag sets claim C2 quantifies over. -/
def SyncFlags.ofBools (d f r s t : Bool) : SyncFlags :=
  ⟨if d then .Draft else .NoFlag,
   if f then .Flagged else .NoFlag,
   if r then .Replied else .NoFlag,
   if s then .Seen else .NoFlag,
   if t then .Trashed else .NoFlag⟩

/-- Embeds `MessageMeta` from `src/cache/messagemeta.rs` (also one row of
the `v1` table of `src/cache/db.rs`, whose columns are exactly these
fields). -/
structure MessageMeta where
  id : String
  size : Nat
  flags : SyncFlags
  uid : Nat
  internal_date_millis : Int
deriving DecidableEq, Repr

/-- Embeds `UidResult` from `src/imapw.rs`: a FETCH response that is
guaranteed to carry UID, RFC822.SIZE and INTERNALDATE (its accessors
`uid()`, `size()`, `internal_date_millis()`, `flags()` are the fields). -/
structure UidResult where
  uid : Nat
  size : Nat
  internal_date_millis : Int
  flags : List Flag
deriving DecidableEq, Repr

/-- Embeds `MessageMeta::flags_equal`. -/
def MessageMeta.flags_equal (meta : MessageMeta) (flags : List Flag) : Bool :=
  let diff := meta.flags.diff (SyncFlags.fromImapFlags flags)
  diff.add.empty && diff.sub.empty

/-- Embeds `MessageMeta::is_equal` applied to a `UidResult` (as
`SyncDir::update_cache_for_uid` does), where the three `expect`ed
attributes are present by construction. -/
def MessageMeta.is_equal (meta : MessageMeta) (fetch : UidResult) : Bool :=
  meta.size == fetch.size && meta.uid == fetch.uid &&
    meta.internal_date_millis == fetch.internal_date_millis &&
    meta.flags_equal fetch.flags

/-- Embeds `MessageMeta::needs_refetch`. -/
def MessageMeta.needs_refetch (meta : MessageMeta) (fetch : UidResult) : Bool :=
  meta.size != fetch.size || meta.internal_date_millis != fetch.internal_date_millis

/-- Embeds `MessageMeta::needs_move_from_new_to_cur`. -/
def MessageMeta.needs_move_from_new_to_cur (meta : MessageMeta) (fetch : UidResult) : Bool :=
  !(meta.flags.contains .Seen) && fetch.flags.contains Flag.Seen

/-- Embeds the field assignments of `MessageMeta::update` (the in-memory
effect of the cache's `update`, which returns the updated meta that
`SyncDir::update_cache_for_uid` names `newmeta`): flags, size and
internal date are taken from the fetch, id and uid are kept. -/
def MessageMeta.updateFromFetch (meta : MessageMeta) (fetch : UidResult) : MessageMeta :=
  { meta with
      flags := SyncFlags.fromImapFlags fetch.flags
      size := fetch.size
      internal_date_millis := fetch.internal_date_millis }

/-- Embeds `MessageMeta::flags()`: the maildir string of the cached
flags. -/
def MessageMeta.flagsString (meta : MessageMeta) : List Char :=
  meta.flags.toMaildirString

/-- One effectful call issued by `SyncDir::update_cache_for_uid`
(`src/syncdir.rs`), recorded as an action:
`deleteFromMaildir` is `self.delete_message_from_maildir(uid)`,
`fetchAndSave` is `self.cache_message_for_uid(imap, uid)` (a full
`fetch_uid` plus `save_message_in_maildir`),
`cacheUpdate` is `self.cache.update(uidres)`,
`moveToCur` is `self.maildir.move_message_to_cur(id, flags)` and
`setFlags` is `self.maildir.set_flags_for_message(id, flags)`. -/
inductive SyncAction where
  | deleteFromMaildir (uid : Nat)
  | fetchAndSave (uid : Nat)
  | cacheUpdate (uid : Nat)
  | moveToCur (id : String) (flags : List Char)
  | setFlags (id : String) (flags : List Char)
deriving DecidableEq, Repr

/-- Embeds the control flow of `SyncDir::update_cache_for_uid` as the
sequence of effectful calls it issues on the success path; the Boolean
`inNew` stands for the result of `self.maildir.message_is_in_new(meta.id())`,
which the source consults only when `needs_move_from_new_to_cur` already
holds. -/
def update_cache_for_uid (inNew : Bool) (meta : MessageMeta) (uidres : UidResult) :
    List SyncAction :=
  if meta.is_equal uidres then []
  else if meta.needs_refetch uidres then
    [.deleteFromMaildir meta.uid, .fetchAndSave meta.uid]
  else
    let newmeta := meta.updateFromFetch uidres
    .cacheUpdate uidres.uid ::
      (if meta.needs_move_from_new_to_cur uidres && inNew then
        [.moveToCur meta.id newmeta.flagsString]
      else
        [.setFlags newmeta.id newmeta.flagsString])

/-- Models the `v1` table of `src/cache/db.rs` as its list of rows. -/
abbrev Db := List MessageMeta

/-- Embeds `Db::update`: the SQL statement `UPDATE v1 SET uid, size,
internal_date_millis, flags, id WHERE uid = ?1`.  SQLite reports success
(with zero changed rows) when no row matches, and the source maps any
`Ok(n)` to `Ok(())`, so the operation never fails on an absent UID. -/
def Db.update (db : Db) (meta : MessageMeta) : Except String Db :=
  .ok (db.map (fun row =>
    if row.uid == meta.uid then
      { row with
          uid := meta.uid
          size := meta.size
          internal_date_millis := meta.internal_date_millis
          flags := meta.flags
          id := meta.id }
    else row))

/-- Embeds `Db::delete_uid`: the SQL statement `DELETE from v1 WHERE
uid = ?1`; deleting zero rows succeeds. -/
def Db.delete_uid (db : Db) (uid : Nat) : Except String Db :=
  .ok (db.filter (fun row => !(row.uid == uid)))

/-- Embeds `Db::get_uid`: `SELECT ... FROM v1 WHERE uid = (?)` returning
the first matching row, or `none` for `QueryReturnedNoRows`. -/
def Db.get_uid (db : Db) (uid : Nat) : Option MessageMeta :=
  db.find? (fun row => row.uid == uid)

/-- Embeds `SyncDir::delete_message_from_maildir` (`src/syncdir.rs`): the
Maildir is modeled by the list of message ids it holds.  A missing cache
row (`QueryReturnedNoRows`) yields `Ok(())`; when a row exists, the
Maildir delete's errors are only logged, and the cache row is deleted
unconditionally afterwards. -/
def delete_message_from_maildir (cache : Db) (maildir : List String) (uid : Nat) :
    Except String (Db × List String) :=
  match Db.get_uid cache uid with
  | some meta =>
      let maildir2 := maildir.filter (fun id => !(id == meta.id))
      match Db.delete_uid cache uid with
      | .ok cache2 => .ok (cache2, maildir2)
      | .error e => .error e
  | none => .ok (cache, maildir)

/-- Models a Maildir directory entry as `Maildir::get_updates` reads it:
the `MailEntry` id, the filesystem size of its file, and its flag
suffix.  (The filesystem metadata, whose absence `meta_equal` reports as
an error, is taken to be available.) -/
structure MailEntry where
  id : String
  size : Nat
  flags : List Char
deriving DecidableEq, Repr

/-- Embeds `meta_equal` from `src/maildirw.rs`: compare the on-disk size
with the cached size, then the on-disk flag suffix with the cached flag
string. -/
def meta_equal (maildir_meta : MailEntry) (cache_meta : MessageMeta) : Bool :=
  maildir_meta.size == cache_meta.size &&
    maildir_meta.flags == cache_meta.flagsString

/-- Models the `id → meta` map handed to `Maildir::get_updates` as an
association list. -/
abbrev CacheMap := List (String × MessageMeta)

/-- Models `HashMap::get` on the cache map. -/
def cacheMapGet (cache : CacheMap) (id : String) : Option MessageMeta :=
  (cache.find? (fun p => p.1 == id)).map Prod.snd

/-- Models `HashMap::remove` on the cache map. -/
def cacheMapRemove (cache : CacheMap) (id : String) : CacheMap :=
  cache.filter (fun p => !(p.1 == id))

/-- Embeds the loop body of `Maildir::get_updates`: the accumulator is
`((new, changed), cache)`.  When the entry has a cache row it may join
`changed` and its row always leaves the map (the source's `remove`
cannot fail right after a successful `get`); otherwise the entry joins
`new`. -/
def getUpdatesStep (acc : (List String × List String) × CacheMap) (mailentry : MailEntry) :
    (List String × List String) × CacheMap :=
  match cacheMapGet acc.2 mailentry.id with
  | some cache_meta =>
      ((acc.1.1,
        if meta_equal mailentry cache_meta then acc.1.2 else acc.1.2 ++ [mailentry.id]),
       cacheMapRemove acc.2 mailentry.id)
  | none => ((acc.1.1 ++ [mailentry.id], acc.1.2), acc.2)

/-- Embeds `Maildir::get_updates`: iterate the entries of `new/` chained
with those of `cur/`, starting from empty `new` and `changed` lists. -/
def get_updates (newEntries curEntries : List MailEntry) (cache : CacheMap) :
    (List String × List String) × CacheMap :=
  (newEntries ++ curEntries).foldl getUpdatesStep (([], []), cache)

/-- Models one message stored in a Maildir directory: its id, body and
flag suffix. -/
structure StoredMessage where
  id : String
  body : List Nat
  flags : List Char
deriving DecidableEq, Repr

/-- Models the state of the Maildir for `Maildir::save_message`: the
`new/` and `cur/` directories plus the id counter of the underlying
maildir crate. -/
structure MaildirState where
  newd : List StoredMessage
  curd : List StoredMessage
  counter : Nat
deriving DecidableEq, Repr

/-- Models the fresh id the maildir crate generates for a stored
message. -/
def freshId (n : Nat) : String :=
  "msg" ++ toString n

/-- Models `maildir::Maildir::store_cur_with_flags`: the message lands in
`cur/` carrying the given flag suffix. -/
def store_cur_with_flags (st : MaildirState) (body : List Nat) (flags : List Char) :
    String × MaildirState :=
  let id := freshId st.counter
  (id, { st with curd := st.curd ++ [⟨id, body, flags⟩], counter := st.counter + 1 })

/-- Models `maildir::Maildir::store_new`: the message lands in `new/`
with no flag suffix. -/
def store_new (st : MaildirState) (body : List Nat) : String × MaildirState :=
  let id := freshId st.counter
  (id, { st with newd := st.newd ++ [⟨id, body, []⟩], counter := st.counter + 1 })

/-- Embeds `Maildir::save_message` from `src/maildirw.rs`. -/
def save_message (st : MaildirState) (body : List Nat) (flags : List Char) :
    String × MaildirState :=
  if flags.contains 'S' then store_cur_with_flags st body flags
  else store_new st body

/-- Embeds the `qresync` string of `Imap::fetch_uids`: empty without
`changedsince`, the CHANGEDSINCE/VANISHED modifier with it. -/
def qresyncSuffix (changedsince : Option Nat) : String :=
  match changedsince with
  | none => ""
  | some n => " (CHANGEDSINCE " ++ toString n ++ " VANISHED)"

/-- Embeds the range and fetch-item computation of `Imap::fetch_uids`
(`src/imapw.rs`): the result is the `(range, fetch items)` pair handed to
`uid_fetch`, and the error is returned before any command is issued. -/
def fetch_uids (first : Nat) (last : Option Nat) (changedsince : Option Nat) :
    Except String (String × String) := do
  let range ← match last with
    | none => pure (toString first ++ ":*")
    | some n =>
        if n > first then pure (toString first ++ ":" ++ toString n)
        else Except.error ("Invalid range " ++ toString first ++ ":" ++ toString n)
  pure (range, "(UID RFC822.SIZE INTERNALDATE FLAGS)" ++ qresyncSuffix changedsince)

/-- Embeds the `end` computation of `SyncDir::slow_sync_cache_from_imap`:
`0` maps to an open range, anything else to `Some(last_seen_uid)`. -/
def slowSyncEnd (last_seen_uid : Nat) : Option Nat :=
  match last_seen_uid with
  | 0 => none
  | x => some x

/-- Embeds the head of `SyncDir::slow_sync_cache_from_imap`: the initial
`imap.fetch_uids(1, end, None)` whose result feeds the rest of the sync
cycle through `and_then` (here the continuation `rest`), so an error in
the range computation fails the whole cycle. -/
def slow_sync_cache_from_imap {α : Type} (rest : String × String → Except String α)
    (last_seen_uid : Nat) : Except String α :=
  (fetch_uids 1 (slowSyncEnd last_seen_uid) none).bind rest

/-- Models one message of the selected IMAP mailbox. -/
structure ImapMsg where
  uid : Nat
  size : Nat
  internal_date_millis : Int
  flags : List Flag
  body : List Nat
deriving DecidableEq, Repr

/-- Models the server-visible state of an `Imap` session: the selected
mailbox's messages, the bodies appended so far (they have no UID until
the server assigns one), and whether a mailbox is selected (the
precondition `Imap::append` checks). -/
structure ImapState where
  msgs : List ImapMsg
  appended : List (List Nat × List Flag)
  mailboxSelected : Bool
deriving DecidableEq, Repr

/-- The `UidResult` view of one message, as a FETCH of it reports
(UID, RFC822.SIZE, INTERNALDATE and FLAGS all present). -/
def ImapMsg.toUidResult (m : ImapMsg) : UidResult :=
  ⟨m.uid, m.size, m.internal_date_millis, m.flags⟩

/-- Embeds the server's answer to `Imap::fetch_uid_meta`: one FETCH
response per message with the requested UID. -/
def ImapState.fetch_uid_meta (st : ImapState) (uid : Nat) : List UidResult :=
  (st.msgs.filter (fun m => m.uid == uid)).map ImapMsg.toUidResult

/-- Embeds `Imap::append`: fails (leaving the server untouched) when no
mailbox is selected, otherwise records the body with its flags. -/
def ImapState.append (st : ImapState) (body : List Nat) (flags : List Flag) :
    ImapState × Except String Unit :=
  if st.mailboxSelected then
    ({ st with appended := st.appended ++ [(body, flags)] }, .ok ())
  else
    (st, .error "No mailbox selected")

/-- Embeds `Imap::delete_uid`: `UID STORE +FLAGS (\Deleted)` followed by
`UID EXPUNGE`, which removes every message with the UID. -/
def ImapState.delete_uid (st : ImapState) (uid : Nat) : ImapState × Except String Unit :=
  ({ st with msgs := st.msgs.filter (fun m => !(m.uid == uid)) }, .ok ())

/-- Embeds the search loop of `Imap::replace_uid`: the first fetched
`UidResult` whose uid matches (the loop `break`s at the first hit). -/
def findUidResult (results : List UidResult) (uid : Nat) : Option UidResult :=
  results.find? (fun r => r.uid == uid)

/-- Embeds `Imap::replace_uid` from `src/imapw.rs`: fetch the old
message's metadata, append the new body carrying the old flags, and only
on success delete the old UID.  Failures leave the returned state as the
functions that produced them left it. -/
def ImapState.replace_uid (st : ImapState) (uid : Nat) (body : List Nat) :
    ImapState × Except String Unit :=
  match findUidResult (st.fetch_uid_meta uid) uid with
  | none => (st, .error ("UID " ++ toString uid ++ " not found on server"))
  | some uidres =>
      let (st2, res) := st.append body uidres.flags
      match res with
      | .error e => (st2, .error e)
      | .ok _ => st2.delete_uid uid

/-- Embeds `imap::types::Fetch` as the sources consume it: UID,
RFC822.SIZE and INTERNALDATE may each be absent. -/
structure Fetch where
  uid : Option Nat
  size : Option Nat
  internal_date_millis : Option Int
  flags : List Flag
deriving DecidableEq, Repr

/-- Embeds `FetchResult` from `src/imapw.rs`. -/
inductive FetchResult where
  | Uid (res : UidResult)
  | Other (f : Fetch)
deriving DecidableEq, Repr

/-- Embeds `impl From<&Fetch> for FetchResult`: a fetch carrying UID,
SIZE and INTERNALDATE together is a `UidResult`, anything else is
`Other`. -/
def FetchResult.fromFetch (fetch : Fetch) : FetchResult :=
  match fetch.uid, fetch.size, fetch.internal_date_millis with
  | some u, some s, some d => .Uid ⟨u, s, d, fetch.flags⟩
  | _, _, _ => .Other fetch

/-- Embeds the loop body of `SyncDir::cache_uids_from_imap`: the per-row
work (`update_cache_for_uid` or `cache_message_for_uid`, which touch the
IMAP session, the cache and the Maildir) is abstracted as a
state-transforming `process` function; a row failure sets the `err`
boolean and the loop continues, while `Other` rows are only logged. -/
def cacheUidsStep {σ : Type} (process : σ → UidResult → σ × Except String Unit)
    (acc : σ × Bool) (fetch : Fetch) : σ × Bool :=
  match FetchResult.fromFetch fetch with
  | .Uid uidres =>
      ((process acc.1 uidres).1,
       match (process acc.1 uidres).2 with
       | .error _ => true
       | .ok _ => acc.2)
  | .Other _ => acc

/-- Embeds `SyncDir::cache_uids_from_imap`: fold the loop body over the
whole batch starting with `err = false`, and return an aggregate error at
the end exactly when `err` was set. -/
def cache_uids_from_imap {σ : Type} (process : σ → UidResult → σ × Except String Unit)
    (rows : List Fetch) (st : σ) : σ × Except String Unit :=
  let out := rows.foldl (cacheUidsStep process) (st, false)
  (out.1, if out.2 then .error "Cache failed" else .ok ())

/-- States, following the spec's words, what the final state of the batch
loop should be: every `UidResult` row is processed in order, whether or
not earlier rows failed. -/
def processAllRows {σ : Type} (process : σ → UidResult → σ × Except String Unit)
    (rows : List Fetch) (st : σ) : σ :=
  rows.foldl
    (fun st fetch =>
      match FetchResult.fromFetch fetch with
      | .Uid uidres => (process st uidres).1
      | .Other _ => st) st

/-- States, following the spec's words, whether at least one `UidResult`
row of the batch fails when each row is processed from the state left by
its predecessors. -/
def someRowFails {σ : Type} (process : σ → UidResult → σ × Except String Unit) :
    List Fetch → σ → Bool
  | [], _ => false
  | fetch :: rest, st =>
    match FetchResult.fromFetch fetch with
    | .Uid uidres =>
        (match (process st uidres).2 with
         | .error _ => true
         | .ok _ => false) || someRowFails process rest (process st uidres).1
    | .Other _ => someRowFails process rest st

/-- States, following the spec's words, which on-disk entries are new:
those without a cache row, in disk order. -/
def newIdsOf (entries : List MailEntry) (cache : CacheMap) : List String :=
  (entries.filter (fun e => (cacheMapGet cache e.id).isNone)).map MailEntry.id

/-- States, following the spec's words, which on-disk entries changed:
those whose cache row differs in size or flag string, in disk order. -/
def changedIdsOf (entries : List MailEntry) (cache : CacheMap) : List String :=
  (entries.filter (fun e =>
    match cacheMapGet cache e.id with
    | some m => !(meta_equal e m)
    | none => false)).map MailEntry.id

/-- States, following the spec's words, what remains in the cache map
after `get_updates`: exactly the rows whose id appears on no disk
entry. -/
def leftoverCache (entries : List MailEntry) (cache : CacheMap) : CacheMap :=
  cache.filter (fun p => !(entries.any (fun e => e.id == p.1)))

/-- Sample metadata whose UID (1) is used for concrete instantiations. -/
def sampleMeta : MessageMeta :=
  ⟨"a", 100, SyncFlags.new, 1, 0⟩

/-- Sample database row with UID 2, distinct from `sampleMeta`'s UID. -/
def sampleRow : MessageMeta :=
  ⟨"b", 50, SyncFlags.new, 2, 7⟩

/-- Sample fetch result for UID 1 agreeing with `sampleMeta` in size and
internal date but carrying the Seen flag. -/
def sampleUidResult : UidResult :=
  ⟨1, 100, 0, [Flag.Seen]⟩

/-- Sample Maildir directory entry named like `sampleMeta`'s row. -/
def sampleEntry : MailEntry :=
  ⟨"a", 100, []⟩

/-- Sample Maildir state with empty directories. -/
def sampleMaildir : MaildirState :=
  ⟨[], [], 0⟩

/-- Sample IMAP mailbox holding one message with UID 1. -/
def sampleImap : ImapState :=
  ⟨[⟨1, 100, 0, [Flag.Seen], [104, 105]⟩], [], true⟩

/-!  Theorems.  Each claim of the specification gets one theorem below,
preceded by helper lemmas where needed. -/

/-- C2: for every flag set `F` drawn from `{D, F, R, S, T}` (the subset
given by the five Booleans), parsing `to_maildir_string(F)` yields `F`
back; parsing the corresponding IMAP flag list yields `F`; `F.diff(F)`
has empty `add` and empty `sub`; and for every flag set `G` of the same
shape, applying the diff of `F` against `G` to `F` (remove `sub`, then
union `add`) holds a real flag exactly when `G` does. -/
theorem flag_roundtrip :
    ∀ d f r s t : Bool,
      SyncFlags.fromMaildirStr (SyncFlags.ofBools d f r s t).toMaildirString
          = SyncFlags.ofBools d f r s t ∧
      SyncFlags.fromImapFlags ((SyncFlags.ofBools d f r s t).asImapFlags.getD [])
          = SyncFlags.ofBools d f r s t ∧
      ((SyncFlags.ofBools d f r s t).diff (SyncFlags.ofBools d f r s t)).add.empty = true ∧
      ((SyncFlags.ofBools d f r s t).diff (SyncFlags.ofBools d f r s t)).sub.empty = true ∧
      (∀ d2 f2 r2 s2 t2 : Bool, ∀ v : FlagValue, v ≠ .NoFlag →
        (SyncFlags.ofBools d2 f2 r2 s2 t2).contains v =
          (((SyncFlags.ofBools d f r s t).diff (SyncFlags.ofBools d2 f2 r2 s2 t2)).add.contains v ||
           ((SyncFlags.ofBools d f r s t).contains v &&
            !((SyncFlags.ofBools d f r s t).diff
                (SyncFlags.ofBools d2 f2 r2 s2 t2)).sub.contains v))) := by
  decide

/-- Witness for C2, instantiated at `F = {D, S}`, `G = {F}` and
`v = Flagged`. -/
theorem flag_roundtrip_witness :
    (SyncFlags.ofBools false true false false false).contains .Flagged =
      (((SyncFlags.ofBools true false false true false).diff
          (SyncFlags.ofBools false true false false false)).add.contains .Flagged ||
       ((SyncFlags.ofBools true false false true false).contains .Flagged &&
        !((SyncFlags.ofBools true false false true false).diff
            (SyncFlags.ofBools false true false false false)).sub.contains .Flagged)) :=
  (flag_roundtrip true false false true false).2.2.2.2 false true false false false
    .Flagged (by decide)

/-- C5: `fetch_uids` issues the open range `first:*` when `last` is
`None`, the closed range `first:n` when `last = Some n` with `n > first`,
and errors without issuing a command otherwise; the fetch item list
carries the CHANGEDSINCE/VANISHED modifier exactly when `changedsince`
is present. -/
theorem fetch_uids_spec (first : Nat) (changedsince : Option Nat) :
    (fetch_uids first none changedsince =
      .ok (toString first ++ ":*",
           "(UID RFC822.SIZE INTERNALDATE FLAGS)" ++ qresyncSuffix changedsince)) ∧
    (∀ n, first < n →
      fetch_uids first (some n) changedsince =
        .ok (toString first ++ ":" ++ toString n,
             "(UID RFC822.SIZE INTERNALDATE FLAGS)" ++ qresyncSuffix changedsince)) ∧
    (∀ n, n ≤ first →
      fetch_uids first (some n) changedsince =
        .error ("Invalid range " ++ toString first ++ ":" ++ toString n)) ∧
    (∀ N, qresyncSuffix (some N) = " (CHANGEDSINCE " ++ toString N ++ " VANISHED)") ∧
    qresyncSuffix none = "" := by
  refine ⟨rfl, ?_, ?_, fun N => rfl, rfl⟩
  · intro n h
    simp [fetch_uids, h, pure, Except.pure, Bind.bind, Except.bind]
  · intro n h
    simp [fetch_uids, Nat.not_lt.mpr h]

/-- Witness for C5 at `first = 2`, `changedsince = Some 5`, closed range
`n = 7` and rejected range `n = 1`. -/
theorem fetch_uids_spec_witness :
    fetch_uids 2 (some 7) (some 5) =
      .ok ("2:7", "(UID RFC822.SIZE INTERNALDATE FLAGS) (CHANGEDSINCE 5 VANISHED)") ∧
    fetch_uids 2 (some 1) (some 5) = .error "Invalid range 2:1" := by
  constructor
  · have h := (fetch_uids_spec 2 (some 5)).2.1 7 (by decide)
    simpa using h
  · have h := (fetch_uids_spec 2 (some 5)).2.2.1 1 (by decide)
    simpa using h

/-- C10: with `last_seen_uid = 1` the slow sync path asks for the closed
range `1:1`, which `fetch_uids` rejects before issuing any command, so
the whole cycle fails whatever the rest of the sync would have done; the
initial range fetch succeeds exactly when `last_seen_uid` is `0` or at
least `2`. -/
theorem slow_sync_range_spec (α : Type) (rest : String × String → Except String α) :
    slow_sync_cache_from_imap rest 1 = .error "Invalid range 1:1" ∧
    (∀ n : Nat,
      (∃ out, fetch_uids 1 (slowSyncEnd n) none = .ok out) ↔ (n = 0 ∨ 2 ≤ n)) := by
  constructor
  · rfl
  · intro n
    match n with
    | 0 => exact ⟨fun _ => Or.inl rfl, fun _ => ⟨_, rfl⟩⟩
    | 1 =>
        constructor
        · rintro ⟨out, hout⟩
          simp [fetch_uids, slowSyncEnd] at hout
        · rintro (h | h) <;> omega
    | (m + 2) =>
        constructor
        · intro _
          exact Or.inr (by omega)
        · intro _
          have h2 : 1 < m + 2 := by omega
          refine ⟨(toString 1 ++ ":" ++ toString (m + 2),
                   "(UID RFC822.SIZE INTERNALDATE FLAGS)"), ?_⟩
          simp [fetch_uids, slowSyncEnd, qresyncSuffix, h2, pure, Except.pure, Bind.bind, Except.bind]

/-- Witness for C10: the initial fetch at `last_seen_uid = 5` succeeds. -/
theorem slow_sync_range_spec_witness :
    ∃ out, fetch_uids 1 (slowSyncEnd 5) none = .ok out :=
  ((slow_sync_range_spec Unit (fun _ => .ok ())).2 5).mpr (by decide)

/-- C8: `save_message` stores the message directly in `cur/` with the
flag suffix exactly when the flag string contains the letter S; for
every flag string without S it goes to `new/` with no flag suffix, the
other directory staying untouched in both cases. -/
theorem save_message_spec (st : MaildirState) (body : List Nat) (flags : List Char) :
    (flags.contains 'S' = true →
      save_message st body flags =
        (freshId st.counter,
         { st with
             curd := st.curd ++ [⟨freshId st.counter, body, flags⟩],
             counter := st.counter + 1 })) ∧
    (flags.contains 'S' = false →
      save_message st body flags =
        (freshId st.counter,
         { st with
             newd := st.newd ++ [⟨freshId st.counter, body, []⟩],
             counter := st.counter + 1 })) := by
  constructor
  · intro h
    have h2 : 'S' ∈ flags := by simpa using h
    simp [save_message, store_cur_with_flags, store_new, h2]
  · intro h
    have h2 : 'S' ∉ flags := by simpa using h
    simp [save_message, store_cur_with_flags, store_new, h2]

/-- Witness for C8 with the flag strings "FS" (stored in cur) and "F"
(stored in new). -/
theorem save_message_spec_witness :
    save_message sampleMaildir [1, 2] ['F', 'S'] =
      (freshId 0,
       { sampleMaildir with curd := [⟨freshId 0, [1, 2], ['F', 'S']⟩], counter := 1 }) ∧
    save_message sampleMaildir [1, 2] ['F'] =
      (freshId 0,
       { sampleMaildir with newd := [⟨freshId 0, [1, 2], []⟩], counter := 1 }) := by
  constructor
  · have h := (save_message_spec sampleMaildir [1, 2] ['F', 'S']).1 (by decide)
    simpa [sampleMaildir] using h
  · have h := (save_message_spec sampleMaildir [1, 2] ['F']).2 (by decide)
    simpa [sampleMaildir] using h

/-- Counterexample to C6 as stated: updating a meta whose UID has no row
in the (empty) database does not return an error; the statement succeeds
and leaves the database unchanged, because an SQL UPDATE matching zero
rows is a success. -/
theorem db_update_missing_uid_succeeds :
    Db.update [] sampleMeta = Except.ok [] := by
  rfl

/-- C6 (amended): `Db::update` never fails; every row whose UID matches
the meta's is overwritten in all columns (size, internal-date, flags and
id, i.e. it becomes the meta), and a database holding no row with that
UID is returned unchanged — a no-op rather than an error. -/
theorem db_update_spec (db : Db) (meta : MessageMeta) :
    Db.update db meta =
      .ok (db.map (fun row => if row.uid == meta.uid then meta else row)) ∧
    ((∀ row ∈ db, row.uid ≠ meta.uid) → Db.update db meta = .ok db) := by
  constructor
  · rfl
  · intro h
    simp only [Db.update, Except.ok.injEq]
    induction db with
    | nil => rfl
    | cons row rest ih =>
        have hrow : (row.uid == meta.uid) = false := by
          simpa using h row (by simp)
        have hrest := ih (fun r hr => h r (by simp [hr]))
        rw [List.map_cons, if_neg (by simp [hrow]), hrest]

/-- Witness for C6's amended theorem: updating UID 1 in a database whose
only row has UID 2 is a successful no-op. -/
theorem db_update_spec_witness :
    Db.update [sampleRow] sampleMeta = Except.ok [sampleRow] :=
  (db_update_spec [sampleRow] sampleMeta).2 (by decide)

/-- C7: deleting a UID from the cache is idempotent from the engine's
point of view.  The raw `Db::delete_uid` run twice (monadically) equals a
single run — in particular deleting an absent row succeeds — and the
engine's `delete_message_from_maildir` reaches a state from which running
it again returns the very same successful outcome. -/
theorem delete_uid_idempotent (cache : Db) (maildir : List String) (uid : Nat) :
    ((Db.delete_uid cache uid).bind (fun db2 => Db.delete_uid db2 uid) =
      Db.delete_uid cache uid) ∧
    ∃ cache2 maildir2,
      delete_message_from_maildir cache maildir uid = .ok (cache2, maildir2) ∧
      delete_message_from_maildir cache2 maildir2 uid = .ok (cache2, maildir2) := by
  constructor
  · simp [Db.delete_uid, Except.bind, List.filter_filter]
  · cases hg : Db.get_uid cache uid with
    | none =>
        exact ⟨cache, maildir, by simp [delete_message_from_maildir, hg],
               by simp [delete_message_from_maildir, hg]⟩
    | some meta =>
        refine ⟨cache.filter (fun row => !(row.uid == uid)),
                maildir.filter (fun id => !(id == meta.id)), ?_, ?_⟩
        · simp [delete_message_from_maildir, hg, Db.delete_uid]
        · have hnone :
              Db.get_uid (cache.filter (fun row => !(row.uid == uid))) uid = none := by
            refine List.find?_eq_none.mpr ?_
            intro row hrow
            have h2 := (List.mem_filter.mp hrow).2
            simpa using h2
          simp [delete_message_from_maildir, hnone]

/-- Helper for C3: among the FETCH responses for a UID, the first
`UidResult` with that UID is the view of the first mailbox message with
that UID. -/
theorem findUidResult_filter (msgs : List ImapMsg) (uid : Nat) :
    findUidResult ((msgs.filter (fun m => m.uid == uid)).map ImapMsg.toUidResult) uid =
      (msgs.find? (fun m => m.uid == uid)).map ImapMsg.toUidResult := by
  induction msgs with
  | nil => rfl
  | cons m rest ih =>
      by_cases h : m.uid = uid
      · simp [findUidResult, List.find?_cons, h, ImapMsg.toUidResult]
      · simp only [List.filter_cons, List.find?_cons]
        have hb : (m.uid == uid) = false := by simpa using h
        simp [hb, ih]

/-- C3: `replace_uid` first fetches the old message's metadata, then
appends the new body carrying the old flags, and only then deletes the
old UID: on the success path the appended entry carries the first
matching message's flags and the UID's messages are expunged, while any
error (in particular a failed append, here an unselected mailbox) leaves
the server state exactly as it was, so the original message survives. -/
theorem replace_uid_spec (st : ImapState) (uid : Nat) (body : List Nat) :
    (∀ m, st.msgs.find? (fun x => x.uid == uid) = some m → st.mailboxSelected = true →
      st.replace_uid uid body =
        ({ msgs := st.msgs.filter (fun x => !(x.uid == uid)),
           appended := st.appended ++ [(body, m.flags)],
           mailboxSelected := true }, .ok ())) ∧
    (st.mailboxSelected = false →
      (st.replace_uid uid body).1 = st ∧
      ∃ e, (st.replace_uid uid body).2 = .error e) ∧
    (∀ e, (st.replace_uid uid body).2 = .error e → (st.replace_uid uid body).1 = st) := by
  obtain ⟨msgs, appended, sel⟩ := st
  have hfind := findUidResult_filter msgs uid
  refine ⟨?_, ?_, ?_⟩
  · intro m hm hsel
    subst hsel
    simp only [ImapState.replace_uid, ImapState.fetch_uid_meta, hfind, hm, Option.map_some]
    simp [ImapState.append, ImapState.delete_uid, ImapMsg.toUidResult]
  · intro hsel
    subst hsel
    cases hf : msgs.find? (fun x => x.uid == uid) with
    | none =>
        simp [ImapState.replace_uid, ImapState.fetch_uid_meta, hfind, hf]
    | some m =>
        simp [ImapState.replace_uid, ImapState.fetch_uid_meta, hfind, hf, ImapState.append]
  · intro e
    cases hf : msgs.find? (fun x => x.uid == uid) with
    | none =>
        simp [ImapState.replace_uid, ImapState.fetch_uid_meta, hfind, hf]
    | some m =>
        cases sel with
        | false =>
            simp [ImapState.replace_uid, ImapState.fetch_uid_meta, hfind, hf,
              ImapState.append]
        | true =>
            simp [ImapState.replace_uid, ImapState.fetch_uid_meta, hfind, hf,
              ImapState.append, ImapState.delete_uid]

/-- Witness for C3: on the sample one-message mailbox, replacing UID 1
appends the new body with the old flags and expunges the old message. -/
theorem replace_uid_spec_witness :
    sampleImap.replace_uid 1 [9] =
      ({ msgs := [], appended := [([9], [Flag.Seen])], mailboxSelected := true },
       .ok ()) := by
  have h := (replace_uid_spec sampleImap 1 [9]).1 ⟨1, 100, 0, [Flag.Seen], [104, 105]⟩
    (by decide) (by decide)
  simpa [sampleImap] using h

/-- Helper for C9: folding the batch loop from any starting error flag
processes every row and accumulates whether some row failed. -/
theorem cacheUidsFold {σ : Type} (process : σ → UidResult → σ × Except String Unit)
    (rows : List Fetch) :
    ∀ (st : σ) (b : Bool),
      rows.foldl (cacheUidsStep process) (st, b) =
        (processAllRows process rows st, b || someRowFails process rows st) := by
  induction rows with
  | nil =>
      intro st b
      simp [processAllRows, someRowFails]
  | cons fetch rest ih =>
      intro st b
      simp only [List.foldl_cons, processAllRows, someRowFails]
      cases hf : FetchResult.fromFetch fetch with
      | Uid u =>
          cases hr : (process st u).2 with
          | error e =>
              simp [cacheUidsStep, hf, hr, ih, processAllRows, someRowFails]
          | ok x =>
              simp [cacheUidsStep, hf, hr, ih, processAllRows, someRowFails]
      | Other f =>
          simp [cacheUidsStep, hf, ih, processAllRows, someRowFails]

/-- C9: a failure on one row does not stop the batch: the final state is
the one reached by processing every `UidResult` row in order, and the
call returns the aggregate error "Cache failed" if and only if at least
one row failed, returning ok otherwise. -/
theorem cache_uids_batch {σ : Type} (process : σ → UidResult → σ × Except String Unit)
    (rows : List Fetch) (st : σ) :
    cache_uids_from_imap process rows st =
      (processAllRows process rows st,
       if someRowFails process rows st then .error "Cache failed" else .ok ()) := by
  simp [cache_uids_from_imap, cacheUidsFold]

/-- C1: for a fetch row whose UID is already cached (`meta.uid =
uidres.uid`): if size, internal date and flags all match, nothing is
done; if size or internal date differ, the local copy is deleted and the
message is re-downloaded in full; otherwise only the flags changed, the
cache row is updated, and the file is moved from `new/` to `cur/`
exactly when the old flags lacked Seen, the new flags carry Seen and the
file is still in `new/` — otherwise only its flag suffix is set. -/
theorem update_cache_for_uid_spec (inNew : Bool) (meta : MessageMeta) (uidres : UidResult)
    (huid : meta.uid = uidres.uid) :
    (meta.size = uidres.size → meta.internal_date_millis = uidres.internal_date_millis →
      meta.flags_equal uidres.flags = true →
      update_cache_for_uid inNew meta uidres = []) ∧
    ((meta.size ≠ uidres.size ∨ meta.internal_date_millis ≠ uidres.internal_date_millis) →
      update_cache_for_uid inNew meta uidres =
        [.deleteFromMaildir meta.uid, .fetchAndSave meta.uid]) ∧
    (meta.size = uidres.size → meta.internal_date_millis = uidres.internal_date_millis →
      meta.flags_equal uidres.flags = false →
      update_cache_for_uid inNew meta uidres =
        .cacheUpdate uidres.uid ::
          (if meta.flags.contains .Seen = false ∧
              uidres.flags.contains Flag.Seen = true ∧ inNew = true then
            [.moveToCur meta.id (meta.updateFromFetch uidres).flagsString]
          else
            [.setFlags (meta.updateFromFetch uidres).id
               (meta.updateFromFetch uidres).flagsString])) := by
  refine ⟨?_, ?_, ?_⟩
  · intro h1 h2 h3
    have hiseq : meta.is_equal uidres = true := by
      simp [MessageMeta.is_equal, h1, h2, h3, huid]
    simp [update_cache_for_uid, hiseq]
  · intro h
    have hiseq : meta.is_equal uidres = false := by
      rcases h with h | h <;> simp [MessageMeta.is_equal, h]
    have href : meta.needs_refetch uidres = true := by
      rcases h with h | h <;> simp [MessageMeta.needs_refetch, h]
    simp [update_cache_for_uid, hiseq, href]
  · intro h1 h2 h3
    have hiseq : meta.is_equal uidres = false := by
      simp [MessageMeta.is_equal, h3]
    have href : meta.needs_refetch uidres = false := by
      simp [MessageMeta.needs_refetch, h1, h2]
    simp only [update_cache_for_uid, hiseq, href, Bool.false_eq_true, if_false]
    cases hcs : meta.flags.contains FlagValue.Seen <;>
      cases hcf : uidres.flags.contains Flag.Seen <;>
        cases inNew <;>
          first
          | (have hcf2 : Flag.Seen ∈ uidres.flags := by simpa using hcf
             simp [MessageMeta.needs_move_from_new_to_cur, hcs, hcf, hcf2]
             done)
          | (have hcf2 : Flag.Seen ∉ uidres.flags := by simpa using hcf
             simp [MessageMeta.needs_move_from_new_to_cur, hcs, hcf, hcf2]
             done)

/-- Witness for C1: the sample cached row (no flags, in `new/`) against a
fetch of the same UID, size and date that now carries Seen: the row is
updated and the file moves to `cur/` with suffix S. -/
theorem update_cache_for_uid_spec_witness :
    update_cache_for_uid true sampleMeta sampleUidResult =
      [.cacheUpdate 1, .moveToCur "a" ['S']] := by
  have h := (update_cache_for_uid_spec true sampleMeta sampleUidResult (by decide)).2.2
    (by decide) (by decide) (by decide)
  rw [h]
  decide

/-- Helper for C4: filtering one key out of an association list does not
affect searches for another key. -/
theorem find_key_filter_ne (cache : List (String × MessageMeta)) (k k2 : String)
    (h : k2 ≠ k) :
    (cache.filter (fun p => !(p.1 == k))).find? (fun p => p.1 == k2)
      = cache.find? (fun p => p.1 == k2) := by
  induction cache with
  | nil => rfl
  | cons p rest ih =>
      rw [List.filter_cons]
      by_cases hk : p.1 = k
      · rw [if_neg (by simp [hk]), ih,
          List.find?_cons_of_neg _ (by
            simp only [hk, beq_iff_eq]
            exact fun e => h e.symm)]
      · rw [if_pos (by simp [hk])]
        by_cases hk2 : p.1 = k2
        · rw [List.find?_cons_of_pos _ (by simp [hk2]),
            List.find?_cons_of_pos _ (by simp [hk2])]
        · rw [List.find?_cons_of_neg _ (by simp [hk2]),
            List.find?_cons_of_neg _ (by simp [hk2]), ih]

/-- Helper for C4: removing one key from the cache map does not affect
lookups of other keys. -/
theorem cacheMapGet_remove_ne (cache : CacheMap) (k k2 : String) (h : k2 ≠ k) :
    cacheMapGet (cacheMapRemove cache k) k2 = cacheMapGet cache k2 := by
  simp only [cacheMapGet, cacheMapRemove]
  rw [find_key_filter_ne cache k k2 h]

/-- Helper for C4: the loop of `get_updates`, started from any
accumulators, appends the new and changed ids of the remaining entries
and strips the cache map of every id present on disk.  Disk ids are
assumed distinct, as Maildir ids are. -/
theorem getUpdates_fold (entries : List MailEntry) :
    ∀ (cache : CacheMap) (nw chg : List String),
      (entries.map MailEntry.id).Nodup →
      entries.foldl getUpdatesStep ((nw, chg), cache) =
        ((nw ++ newIdsOf entries cache, chg ++ changedIdsOf entries cache),
         leftoverCache entries cache) := by
  induction entries with
  | nil =>
      intro cache nw chg _
      simp [newIdsOf, changedIdsOf, leftoverCache]
  | cons e rest ih =>
      intro cache nw chg hnd
      rw [List.map_cons, List.nodup_cons] at hnd
      obtain ⟨hni, hrest⟩ := hnd
      have hget : ∀ x ∈ rest, cacheMapGet (cacheMapRemove cache e.id) x.id
          = cacheMapGet cache x.id := by
        intro x hx
        refine cacheMapGet_remove_ne cache e.id x.id ?_
        intro hEq
        exact hni (hEq ▸ List.mem_map_of_mem MailEntry.id hx)
      rw [List.foldl_cons]
      cases hg : cacheMapGet cache e.id with
      | some m =>
          rw [show getUpdatesStep ((nw, chg), cache) e =
                ((nw, if meta_equal e m then chg else chg ++ [e.id]),
                 cacheMapRemove cache e.id) from by simp [getUpdatesStep, hg]]
          rw [ih _ _ _ hrest]
          have hnew : newIdsOf rest (cacheMapRemove cache e.id) = newIdsOf (e :: rest) cache := by
            simp only [newIdsOf, List.filter_cons, hg, Option.isNone_some,
              Bool.false_eq_true, if_false]
            rw [List.filter_congr (fun x hx => by rw [hget x hx])]
          have hchg : (if meta_equal e m then chg else chg ++ [e.id]) ++
                changedIdsOf rest (cacheMapRemove cache e.id)
              = chg ++ changedIdsOf (e :: rest) cache := by
            have hrw : changedIdsOf rest (cacheMapRemove cache e.id)
                = changedIdsOf rest cache := by
              simp only [changedIdsOf]
              rw [List.filter_congr (fun x hx => by rw [hget x hx])]
            rw [hrw]
            simp only [changedIdsOf, List.filter_cons, hg]
            cases hme : meta_equal e m with
            | true => simp
            | false => simp
          have hleft : leftoverCache rest (cacheMapRemove cache e.id)
              = leftoverCache (e :: rest) cache := by
            simp only [leftoverCache, cacheMapRemove, List.filter_filter]
            refine List.filter_congr ?_
            intro p _
            by_cases hp : p.1 = e.id
            · simp [hp]
            · have ha : (p.1 == e.id) = false := by simpa using hp
              have hb : (e.id == p.1) = false := by simpa using Ne.symm hp
              simp [List.any_cons, ha, hb]
          rw [hnew, hchg, hleft]
      | none =>
          rw [show getUpdatesStep ((nw, chg), cache) e =
                ((nw ++ [e.id], chg), cache) from by simp [getUpdatesStep, hg]]
          rw [ih _ _ _ hrest]
          have hnone : ∀ p ∈ cache, (p.1 == e.id) = false := by
            intro p hp
            cases hb : (p.1 == e.id) with
            | false => rfl
            | true =>
                exfalso
                have hfind : cache.find? (fun q => q.1 == e.id) ≠ none := by
                  intro hf
                  have h3 := List.find?_eq_none.mp hf p hp
                  exact h3 hb
                rcases hx : cache.find? (fun q => q.1 == e.id) with _ | v
                · exact hfind hx
                · have hsome : cacheMapGet cache e.id = some v.2 := by
                    simp [cacheMapGet, hx]
                  rw [hg] at hsome
                  cases hsome
          have hnew : nw ++ [e.id] ++ newIdsOf rest cache = nw ++ newIdsOf (e :: rest) cache := by
            simp [newIdsOf, List.filter_cons, hg]
          have hchg : changedIdsOf rest cache = changedIdsOf (e :: rest) cache := by
            simp [changedIdsOf, List.filter_cons, hg]
          have hleft : leftoverCache rest cache = leftoverCache (e :: rest) cache := by
            simp only [leftoverCache]
            refine List.filter_congr ?_
            intro p hp
            have hne : (e.id == p.1) = false := by
              have h1 := hnone p hp
              simp only [beq_eq_false_iff_ne] at h1 ⊢
              exact fun hEq => h1 hEq.symm
            simp [List.any_cons, hne]
          rw [hnew, hchg, hleft]

/-- C4: `get_updates` walks the entries of `new/` then `cur/` (ids
assumed distinct, as Maildir ids are): the new list is exactly the
on-disk entries without a cache row, the changed list is exactly the
on-disk entries whose cache row differs in size or flag string, and the
returned cache map retains exactly the rows whose id is absent from
disk. -/
theorem get_updates_spec (newEntries curEntries : List MailEntry) (cache : CacheMap)
    (hnd : ((newEntries ++ curEntries).map MailEntry.id).Nodup) :
    get_updates newEntries curEntries cache =
      ((newIdsOf (newEntries ++ curEntries) cache,
        changedIdsOf (newEntries ++ curEntries) cache),
       leftoverCache (newEntries ++ curEntries) cache) := by
  have h := getUpdates_fold (newEntries ++ curEntries) cache [] [] hnd
  simpa [get_updates] using h

/-- Witness for C4: one unchanged entry on disk matching its single cache
row: nothing is new, nothing changed, and the cache map empties. -/
theorem get_updates_spec_witness :
    get_updates [sampleEntry] [] [("a", sampleMeta)] = (([], []), []) := by
  have h := get_updates_spec [sampleEntry] [] [("a", sampleMeta)] (by decide)
  rw [h]
  decide

end Runt
